import Mathlib

/-!
# Verification of the contextkeeper item store

Shallow embedding of `internal/storage` (file `storage.go`) and the
`ContextItem` model of `internal/models`.  Go slices become Lean lists,
the backing JSON file becomes a `FileContent` value (a parsed JSON AST:
`json.MarshalIndent` is deterministic, so two equal ASTs render to equal
bytes and "no write happened" is modelled as the `FileContent` being
unchanged), and the fallible filesystem calls (`os.MkdirAll`,
`os.WriteFile`, `os.ReadFile`) are driven by an `Env` of outcome oracles.
`time.Time` values are modelled by their RFC3339 rendering (a `String`):
that is exactly the information the persisted format preserves, which is
the precision at which the specification compares timestamps.
-/

set_option autoImplicit false

namespace ContextKeeper

/-- Embedding of `models.ContextItem` (struct in `internal/models/item.go`).
`CreatedAt` is the RFC3339 rendering of the Go `time.Time`; `CompletedAt`
is `Option` because the Go field is a `*time.Time` (nil = not completed). -/
structure ContextItem where
  ID : String
  Content : String
  Project : String
  Tags : List String
  CreatedAt : String
  CompletedAt : Option String
  Archived : Bool
  deriving DecidableEq, Repr

/-- `models.ContextItem.IsCompleted`: true iff `CompletedAt` is non-nil. -/
def ContextItem.IsCompleted (c : ContextItem) : Bool :=
  c.CompletedAt.isSome

/-- `models.ContextItem.IsArchived`. -/
def ContextItem.IsArchived (c : ContextItem) : Bool :=
  c.Archived

/-- JSON values, as produced and consumed by Go's `encoding/json` for this
data model (numbers never occur in the persisted format, so they are not
needed; a `num` constructor would only add unreachable decode-error cases). -/
inductive Json where
  | null : Json
  | bool : Bool → Json
  | str : String → Json
  | arr : List Json → Json
  | obj : List (String × Json) → Json
  deriving Repr

/-- Key lookup in a decoded JSON object, with Go `encoding/json` semantics:
when a key occurs several times the last occurrence wins (the decoder
processes keys in stream order, each overwriting the previous value). -/
def getKey (k : String) : List (String × Json) → Option Json
  | [] => none
  | (k', v) :: rest =>
    match getKey k rest with
    | some v' => some v'
    | none => if k' = k then some v else none

/-- Marshalling of one `ContextItem`, mirroring the struct tags in
`internal/models/item.go`: keys in field order; `project` and `tags` are
`omitempty` (omitted for the empty string / nil-or-empty slice);
`completed_at` is omitted when the pointer is nil; `id`, `content`,
`created_at`, `archived` are always present. -/
def itemToJson (it : ContextItem) : Json :=
  .obj ([("id", .str it.ID), ("content", .str it.Content)]
    ++ (if it.Project = "" then [] else [("project", .str it.Project)])
    ++ (match it.Tags with
        | [] => []
        | ts => [("tags", .arr (ts.map .str))])
    ++ [("created_at", .str it.CreatedAt)]
    ++ (match it.CompletedAt with
        | none => []
        | some t => [("completed_at", .str t)])
    ++ [("archived", .bool it.Archived)])

/-- `json.MarshalIndent(s.items, ...)` marshals the slice as a JSON array.
(Marshalling of this type never fails in Go, so no error case is modelled.) -/
def itemsToJson (items : List ContextItem) : Json :=
  .arr (items.map itemToJson)

/-- Decoding a JSON string field with Go semantics: an absent key leaves the
zero value, `null` is a no-op (also leaving the zero value), a string sets
the field, anything else is a decode error. -/
def decodeStr (o : List (String × Json)) (k : String) : Option String :=
  match getKey k o with
  | none => some ""
  | some .null => some ""
  | some (.str s) => some s
  | some _ => none

/-- Decoding an optional (`*time.Time`-backed) string field: absent or
`null` means nil pointer. -/
def decodeOptStr (o : List (String × Json)) (k : String) : Option (Option String) :=
  match getKey k o with
  | none => some none
  | some .null => some none
  | some (.str s) => some (some s)
  | some _ => none

/-- Element-wise decoding of a `[]string` JSON array: every element must
be a string. -/
def decodeStrList : List Json → Option (List String)
  | [] => some []
  | .str s :: rest => (decodeStrList rest).map (s :: ·)
  | _ => none

/-- Decoding the `tags` field (`[]string`): absent or `null` gives the nil
slice, an array must consist of strings only. -/
def decodeTags (o : List (String × Json)) : Option (List String) :=
  match getKey "tags" o with
  | none => some []
  | some .null => some []
  | some (.arr js) => decodeStrList js
  | some _ => none

/-- Decoding the `archived` field (`bool`, no omitempty): absent or `null`
leaves the zero value `false`. -/
def decodeBool (o : List (String × Json)) (k : String) : Option Bool :=
  match getKey k o with
  | none => some false
  | some .null => some false
  | some (.bool b) => some b
  | some _ => none

/-- Go `json.Unmarshal` of one array element into a `models.ContextItem`:
a JSON object decodes field by field (unknown keys ignored, missing keys
leave zero values), `null` leaves the zero-valued struct, anything else is
a decode error.  (Go additionally validates that `created_at` /
`completed_at` strings parse as RFC3339; since times are modelled by their
rendering, that validation is not reproduced — no claim depends on feeding
a syntactically invalid timestamp string to `Load`.) -/
def itemFromJson : Json → Option ContextItem
  | .null => some ⟨"", "", "", [], "", none, false⟩
  | .obj o => do
    let id ← decodeStr o "id"
    let content ← decodeStr o "content"
    let project ← decodeStr o "project"
    let tags ← decodeTags o
    let createdAt ← decodeStr o "created_at"
    let completedAt ← decodeOptStr o "completed_at"
    let archived ← decodeBool o "archived"
    some ⟨id, content, project, tags, createdAt, completedAt, archived⟩
  | _ => none

/-- Element-wise decoding of the array: every element must decode as an
item. -/
def decodeItems : List Json → Option (List ContextItem)
  | [] => some []
  | j :: rest =>
    match itemFromJson j with
    | none => none
    | some it => (decodeItems rest).map (it :: ·)

/-- `json.Unmarshal(data, &s.items)`: the document must be a JSON array of
items (or `null`, which sets the slice to nil). -/
def itemsFromJson : Json → Option (List ContextItem)
  | .null => some []
  | .arr js => decodeItems js
  | _ => none

/-- Content of the backing file at the store's path, as seen by
`os.ReadFile`: absent (`os.IsNotExist`), unreadable for another reason
(with the underlying cause), or present with a given (parsed) content. -/
inductive FileContent where
  | absent : FileContent
  | unreadable (cause : String) : FileContent
  | present (j : Json) : FileContent
  deriving Repr

/-- Error surface of the store: the two sentinel errors
(`ErrItemNotFound`, `ErrAmbiguousID`) plus the wrapped I/O and decode
errors, each carrying the path (or directory) and the underlying cause
exactly as the corresponding `fmt.Errorf` wrap does. -/
inductive StoreErr where
  | itemNotFound : StoreErr
  | ambiguousID : StoreErr
  | mkdirError (dir : String) (cause : String) : StoreErr
  | writeError (path : String) (cause : String) : StoreErr
  | readError (path : String) (cause : String) : StoreErr
  | decodeError (path : String) (cause : String) : StoreErr
  deriving DecidableEq, Repr

/-- In-memory state of `storageImpl`: the resolved file path and the item
slice.  The `sync.RWMutex` serializes calls; each operation below is one
critical section, so the embedding is a function on this state. -/
structure Store where
  path : String
  items : List ContextItem
  deriving Repr

/-- Outcome oracles for the filesystem calls made inside one operation:
the current content of the backing file, and whether `os.MkdirAll` /
`os.WriteFile` fail (with which cause) during this call. -/
structure Env where
  file : FileContent
  mkdirFail : Option String
  writeFail : Option String

/-- `storage.ItemsFileName`. -/
def ItemsFileName : String := "items.json"

/-- Model of Go `strings.HasPrefix(s, p)`: `p` is a leading substring of
`s`.  Go compares bytes; on the character sequence of a Lean string this
is the same relation for any valid UTF-8 prefix. -/
def hasPrefix (p s : String) : Bool :=
  p.data.isPrefixOf s.data

/-- Model of Go `strings.HasSuffix(s, p)`. -/
def hasSuffix (p s : String) : Bool :=
  p.data.isSuffixOf s.data

/-- Model of `filepath.Dir`: everything before the final slash ("." when
there is none).  It only feeds the payload of `mkdirError`; no claim
inspects it. -/
def dirName (p : String) : String :=
  let parts := p.splitOn "/"
  match parts with
  | [] => "."
  | [_] => "."
  | _ => String.intercalate "/" (parts.dropLast)

/-- Model of `filepath.Join(p, name)` for an already-clean `p`: "" joins to
`name` itself, otherwise the two are joined with a single slash. -/
def joinPath (p name : String) : String :=
  if p = "" then name
  else if hasSuffix "/" p then p ++ name
  else p ++ "/" ++ name

/-- `storage.NewStorage`: if the given path does not have `items.json` as a
suffix (Go `strings.HasSuffix`), `filepath.Join` appends it; the item slice
starts empty.  The Go constructor performs no filesystem call, which the
embedding reflects by being a pure function of the path. -/
def NewStorage (path : String) : Store :=
  { path := if hasSuffix ItemsFileName path then path
            else joinPath path ItemsFileName
    items := [] }

/-- Modelled from the spec: "the given path does not already point at the
canonical filename".  The filename a path points at is its last
slash-separated component (`filepath.Base` for paths without a trailing
slash).  This definition follows the spec wording, for comparison with the
suffix test the constructor actually performs. -/
def baseName (p : String) : String :=
  String.mk ((p.data.reverse.takeWhile (fun c => c ≠ '/')).reverse)

/-- `storageImpl.persistLocked`: ensure the directory exists, marshal the
slice to JSON, write the file.  Returns the error (if any) and the file
content after the call.  A failed `os.MkdirAll` or `os.WriteFile` is
modelled as leaving the file unchanged (no claim depends on the file state
after a failed write). -/
def persistLocked (st : Store) (env : Env) : Except StoreErr Unit × FileContent :=
  match env.mkdirFail with
  | some c => (.error (.mkdirError (dirName st.path) c), env.file)
  | none =>
    match env.writeFail with
    | some c => (.error (.writeError st.path c), env.file)
    | none => (.ok (), .present (itemsToJson st.items))

/-- `storageImpl.Load`: a missing file resets the slice to empty and
succeeds; a read failure or a document that does not decode as an array of
items is a wrapped error carrying the path and the cause. -/
def Load (st : Store) (env : Env) : Except StoreErr Unit × Store :=
  match env.file with
  | .absent => (.ok (), { st with items := [] })
  | .unreadable c => (.error (.readError st.path c), st)
  | .present j =>
    match itemsFromJson j with
    | none => (.error (.decodeError st.path "cannot unmarshal JSON into []models.ContextItem"), st)
    | some xs => (.ok (), { st with items := xs })

/-- `storageImpl.Save`: persist the current slice. -/
def Save (st : Store) (env : Env) : Except StoreErr Unit × Store × FileContent :=
  let pf := persistLocked st env
  (pf.1, st, pf.2)

/-- `storageImpl.GetAll`: a copy of the slice (pure value in the embedding). -/
def GetAll (st : Store) : List ContextItem :=
  st.items

/-- `storageImpl.GetByID`: linear scan, first exact ID match. -/
def GetByID (st : Store) (id : String) : Except StoreErr ContextItem :=
  match st.items.find? (fun it => it.ID = id) with
  | some it => .ok it
  | none => .error .itemNotFound

/-- `storageImpl.GetByPrefix`: collect all items whose ID has the given
prefix (`strings.HasPrefix(item.ID, prefix)`), then switch on the number
of matches: zero is not-found, one is returned, more is ambiguous. -/
def GetByPrefix (st : Store) (p : String) : Except StoreErr ContextItem :=
  match st.items.filter (fun it => hasPrefix p it.ID) with
  | [] => .error .itemNotFound
  | [it] => .ok it
  | _ => .error .ambiguousID

/-- `storageImpl.Add`: append to the slice, then persist.  Memory is
mutated before the persist attempt. -/
def Add (st : Store) (env : Env) (item : ContextItem) :
    Except StoreErr Unit × Store × FileContent :=
  let st' := { st with items := st.items ++ [item] }
  let pf := persistLocked st' env
  (pf.1, st', pf.2)

/-- The in-place replacement loop of `storageImpl.Update`: replace the
first element whose ID equals `item.ID`, or report that none exists. -/
def updateFirst (item : ContextItem) : List ContextItem → Option (List ContextItem)
  | [] => none
  | x :: xs =>
    if x.ID = item.ID then some (item :: xs)
    else (updateFirst item xs).map (x :: ·)

/-- `storageImpl.Update`: replace the first item with a matching ID
wholesale and persist; `ErrItemNotFound` (before any write) otherwise. -/
def Update (st : Store) (env : Env) (item : ContextItem) :
    Except StoreErr Unit × Store × FileContent :=
  match updateFirst item st.items with
  | none => (.error .itemNotFound, st, env.file)
  | some l =>
    let st' := { st with items := l }
    let pf := persistLocked st' env
    (pf.1, st', pf.2)

/-- The in-place flag loop of `storageImpl.Archive`: set `Archived := true`
on the first element with a matching ID. -/
def archiveFirst (id : String) : List ContextItem → Option (List ContextItem)
  | [] => none
  | x :: xs =>
    if x.ID = id then some ({ x with Archived := true } :: xs)
    else (archiveFirst id xs).map (x :: ·)

/-- `storageImpl.Archive`: flip `Archived` on the first matching item and
persist; `ErrItemNotFound` (before any write) otherwise. -/
def Archive (st : Store) (env : Env) (id : String) :
    Except StoreErr Unit × Store × FileContent :=
  match archiveFirst id st.items with
  | none => (.error .itemNotFound, st, env.file)
  | some l =>
    let st' := { st with items := l }
    let pf := persistLocked st' env
    (pf.1, st', pf.2)

/-- The removal loop of `storageImpl.Delete`
(`append(s.items[:i], s.items[i+1:]...)`): remove the first element with a
matching ID, keeping the rest in order. -/
def deleteFirst (id : String) : List ContextItem → Option (List ContextItem)
  | [] => none
  | x :: xs =>
    if x.ID = id then some xs
    else (deleteFirst id xs).map (x :: ·)

/-- `storageImpl.Delete`: remove the first matching item and persist;
`ErrItemNotFound` (before any write) otherwise. -/
def Delete (st : Store) (env : Env) (id : String) :
    Except StoreErr Unit × Store × FileContent :=
  match deleteFirst id st.items with
  | none => (.error .itemNotFound, st, env.file)
  | some l =>
    let st' := { st with items := l }
    let pf := persistLocked st' env
    (pf.1, st', pf.2)

/-- `storageImpl.SetItems`: replace the whole slice and persist; the
method has no return value, so the persist error is discarded. -/
def SetItems (st : Store) (env : Env) (items : List ContextItem) :
    Store × FileContent :=
  let st' := { st with items := items }
  let pf := persistLocked st' env
  (st', pf.2)


/-! ## Helper lemmas -/

theorem decodeStrList_map_str (ts : List String) :
    decodeStrList (ts.map Json.str) = some ts := by
  induction ts with
  | nil => rfl
  | cons t ts ih => simp [decodeStrList, ih]

/-- Marshalling one item and decoding it back is the identity: the struct
tags lose no field. -/
theorem itemFromJson_itemToJson (it : ContextItem) :
    itemFromJson (itemToJson it) = some it := by
  obtain ⟨id, content, project, tags, created, completed, arch⟩ := it
  rcases Decidable.em (project = "") with hp | hp <;>
    rcases tags with _ | ⟨t, ts⟩ <;>
      rcases completed with _ | c <;>
        simp [itemToJson, itemFromJson, decodeStr, decodeOptStr, decodeTags,
          decodeBool, getKey, hp, decodeStrList, decodeStrList_map_str]

/-- Marshalling the whole slice and decoding it back is the identity. -/
theorem itemsFromJson_itemsToJson (xs : List ContextItem) :
    itemsFromJson (itemsToJson xs) = some xs := by
  induction xs with
  | nil => rfl
  | cons x xs ih =>
    simp only [itemsToJson, itemsFromJson, List.map_cons, decodeItems,
      itemFromJson_itemToJson] at *
    simp [ih]

/-- A persist in an environment where the filesystem calls succeed writes
the marshalled slice. -/
theorem persistLocked_ok (st : Store) (env : Env)
    (hmk : env.mkdirFail = none) (hwr : env.writeFail = none) :
    persistLocked st env = (.ok (), .present (itemsToJson st.items)) := by
  simp [persistLocked, hmk, hwr]

/-- A persist that reports success wrote the marshalled slice (whatever the
environment did). -/
theorem persistLocked_of_ok (st : Store) (env : Env)
    (h : (persistLocked st env).1 = .ok ()) :
    (persistLocked st env).2 = .present (itemsToJson st.items) := by
  unfold persistLocked at *
  rcases hmk : env.mkdirFail with _ | c <;> rcases hwr : env.writeFail with _ | c' <;>
    simp [hmk, hwr] at h ⊢

theorem find?_id_of_forall_ne {l : List ContextItem} {id : String}
    (h : ∀ y ∈ l, y.ID ≠ id) :
    l.find? (fun it => it.ID = id) = none := by
  induction l with
  | nil => rfl
  | cons y l ih =>
    have hy : y.ID ≠ id := h y (by simp)
    simp [List.find?, hy, ih (fun z hz => h z (by simp [hz]))]

theorem find?_id_first (pre post : List ContextItem) (x : ContextItem) (id : String)
    (hx : x.ID = id) (hpre : ∀ y ∈ pre, y.ID ≠ id) :
    (pre ++ x :: post).find? (fun it => it.ID = id) = some x := by
  induction pre with
  | nil => simp [List.find?, hx]
  | cons y pre ih =>
    have hy : y.ID ≠ id := hpre y (by simp)
    simp [List.find?, hy, ih (fun z hz => hpre z (by simp [hz]))]

theorem updateFirst_of_forall_ne {l : List ContextItem} {item : ContextItem}
    (h : ∀ y ∈ l, y.ID ≠ item.ID) :
    updateFirst item l = none := by
  induction l with
  | nil => rfl
  | cons y l ih =>
    simp [updateFirst, h y (by simp), ih (fun z hz => h z (by simp [hz]))]

theorem updateFirst_first (pre post : List ContextItem) (x item : ContextItem)
    (hx : x.ID = item.ID) (hpre : ∀ y ∈ pre, y.ID ≠ item.ID) :
    updateFirst item (pre ++ x :: post) = some (pre ++ item :: post) := by
  induction pre with
  | nil => simp [updateFirst, hx]
  | cons y pre ih =>
    simp [updateFirst, hpre y (by simp), ih (fun z hz => hpre z (by simp [hz]))]

theorem archiveFirst_of_forall_ne {l : List ContextItem} {id : String}
    (h : ∀ y ∈ l, y.ID ≠ id) :
    archiveFirst id l = none := by
  induction l with
  | nil => rfl
  | cons y l ih =>
    simp [archiveFirst, h y (by simp), ih (fun z hz => h z (by simp [hz]))]

theorem archiveFirst_first (pre post : List ContextItem) (x : ContextItem) (id : String)
    (hx : x.ID = id) (hpre : ∀ y ∈ pre, y.ID ≠ id) :
    archiveFirst id (pre ++ x :: post) = some (pre ++ { x with Archived := true } :: post) := by
  induction pre with
  | nil => simp [archiveFirst, hx]
  | cons y pre ih =>
    simp [archiveFirst, hpre y (by simp), ih (fun z hz => hpre z (by simp [hz]))]

theorem deleteFirst_of_forall_ne {l : List ContextItem} {id : String}
    (h : ∀ y ∈ l, y.ID ≠ id) :
    deleteFirst id l = none := by
  induction l with
  | nil => rfl
  | cons y l ih =>
    simp [deleteFirst, h y (by simp), ih (fun z hz => h z (by simp [hz]))]

theorem deleteFirst_first (pre post : List ContextItem) (x : ContextItem) (id : String)
    (hx : x.ID = id) (hpre : ∀ y ∈ pre, y.ID ≠ id) :
    deleteFirst id (pre ++ x :: post) = some (pre ++ post) := by
  induction pre with
  | nil => simp [deleteFirst, hx]
  | cons y pre ih =>
    simp [deleteFirst, hpre y (by simp), ih (fun z hz => hpre z (by simp [hz]))]

/-- The spec-side filename of a path is always a suffix of the path. -/
theorem baseName_suffix (p : String) : (baseName p).data <:+ p.data := by
  have h : p.data.reverse.takeWhile (fun c => c ≠ '/') <+: p.data.reverse :=
    List.takeWhile_prefix _
  have h2 : ((p.data.reverse.takeWhile (fun c => c ≠ '/')).reverse).reverse
      <+: p.data.reverse := by
    simpa using h
  have h3 := List.reverse_prefix.mp h2
  simpa [baseName] using h3

/-! ## Claim theorems -/

/-- C1: Prefix cardinality law.  For every store state and prefix `p`,
`GetByPrefix p` returns `ErrItemNotFound` iff no stored ID starts with `p`
(zero matches), returns exactly the unique matching item iff exactly one
ID starts with `p`, and returns `ErrAmbiguousID` iff two or more IDs start
with `p`; ambiguity is never silently resolved by picking one match. -/
theorem getByPrefix_cardinality (st : Store) (p : String) :
    (GetByPrefix st p = .error .itemNotFound ↔
      (st.items.filter (fun it => hasPrefix p it.ID)).length = 0)
    ∧ (∀ it : ContextItem, GetByPrefix st p = .ok it ↔
      st.items.filter (fun it => hasPrefix p it.ID) = [it])
    ∧ (GetByPrefix st p = .error .ambiguousID ↔
      2 ≤ (st.items.filter (fun it => hasPrefix p it.ID)).length) := by
  rcases hm : st.items.filter (fun it => hasPrefix p it.ID) with _ | ⟨a, _ | ⟨b, l⟩⟩ <;>
    simp [GetByPrefix, hm]

/-- C2 (counterexample): `SetItems` reports no error, so when the write
fails (here: the file write fails with "disk full") the call still
replaces the in-memory sequence, yet the backing file does not contain the
serialization of the new sequence — refuting the claim that every
`SetItems` call leaves the on-disk state reflecting the in-memory state. -/
theorem setItems_swallows_persist_error :
    (SetItems { path := "proj/items.json", items := [] }
        { file := .absent, mkdirFail := none, writeFail := some "disk full" }
        [⟨"id-1", "c", "", [], "2024-01-01T00:00:00Z", none, false⟩]).1.items
      = [⟨"id-1", "c", "", [], "2024-01-01T00:00:00Z", none, false⟩]
    ∧ (SetItems { path := "proj/items.json", items := [] }
        { file := .absent, mkdirFail := none, writeFail := some "disk full" }
        [⟨"id-1", "c", "", [], "2024-01-01T00:00:00Z", none, false⟩]).2 = .absent
    ∧ (SetItems { path := "proj/items.json", items := [] }
        { file := .absent, mkdirFail := none, writeFail := some "disk full" }
        [⟨"id-1", "c", "", [], "2024-01-01T00:00:00Z", none, false⟩]).2
      ≠ .present (itemsToJson
        [⟨"id-1", "c", "", [], "2024-01-01T00:00:00Z", none, false⟩]) :=
  ⟨rfl, rfl, fun h => nomatch h⟩

/-- C2 (amended): write-through on success.  For `Add`, `Update`,
`Archive`, `Delete` and `Save`, a success return implies the backing file
is exactly the JSON serialization of the new in-memory sequence; for
`SetItems`, which discards the persist error, this holds whenever the
underlying filesystem calls succeed (but not on every call — see the
counterexample). -/
theorem write_through_on_success (st : Store) (env : Env) (item : ContextItem)
    (id : String) (items : List ContextItem) :
    ((Add st env item).1 = .ok () →
      (Add st env item).2.2 = .present (itemsToJson (Add st env item).2.1.items))
    ∧ ((Update st env item).1 = .ok () →
      (Update st env item).2.2 = .present (itemsToJson (Update st env item).2.1.items))
    ∧ ((Archive st env id).1 = .ok () →
      (Archive st env id).2.2 = .present (itemsToJson (Archive st env id).2.1.items))
    ∧ ((Delete st env id).1 = .ok () →
      (Delete st env id).2.2 = .present (itemsToJson (Delete st env id).2.1.items))
    ∧ ((Save st env).1 = .ok () →
      (Save st env).2.2 = .present (itemsToJson (Save st env).2.1.items))
    ∧ (env.mkdirFail = none → env.writeFail = none →
      (SetItems st env items).2 = .present (itemsToJson (SetItems st env items).1.items)) := by
  refine ⟨?_, ?_, ?_, ?_, ?_, fun hmk hwr => ?_⟩
  · exact fun h => persistLocked_of_ok _ _ h
  · rcases hu : updateFirst item st.items with _ | l
    · intro h; simp [Update, hu] at h
    · intro h
      simp only [Update, hu] at h ⊢
      exact persistLocked_of_ok _ _ h
  · rcases hu : archiveFirst id st.items with _ | l
    · intro h; simp [Archive, hu] at h
    · intro h
      simp only [Archive, hu] at h ⊢
      exact persistLocked_of_ok _ _ h
  · rcases hu : deleteFirst id st.items with _ | l
    · intro h; simp [Delete, hu] at h
    · intro h
      simp only [Delete, hu] at h ⊢
      exact persistLocked_of_ok _ _ h
  · exact fun h => persistLocked_of_ok _ _ h
  · simp [SetItems, persistLocked_ok _ _ hmk hwr]

/-- C2 (witness): on a concrete store in an environment with no
filesystem failure, a successful `Add` and a `SetItems` both leave the
file holding the serialized new sequence. -/
theorem write_through_on_success_witness :
    (Add { path := "p/items.json", items := [] } { file := .absent, mkdirFail := none, writeFail := none }
        ⟨"a", "c", "", [], "t", none, false⟩).2.2
      = .present (itemsToJson [⟨"a", "c", "", [], "t", none, false⟩])
    ∧ (SetItems { path := "p/items.json", items := [] } { file := .absent, mkdirFail := none, writeFail := none }
        [⟨"a", "c", "", [], "t", none, false⟩]).2
      = .present (itemsToJson [⟨"a", "c", "", [], "t", none, false⟩]) := by
  have h := write_through_on_success { path := "p/items.json", items := [] }
    { file := .absent, mkdirFail := none, writeFail := none }
    ⟨"a", "c", "", [], "t", none, false⟩ "x" [⟨"a", "c", "", [], "t", none, false⟩]
  exact ⟨h.1 rfl, h.2.2.2.2.2 rfl rfl⟩

/-- C3: Round-trip.  Adding an item whose ID is not already in the store,
then `Save`, then a fresh `Load` of the same file into a new empty store,
then `GetByID` with the item's ID, succeeds and returns an item equal to
the original in all fields (timestamps being compared at the precision
the format preserves, which is how they are modelled). -/
theorem add_save_load_roundtrip (st : Store) (env : Env) (item : ContextItem)
    (hmk : env.mkdirFail = none) (hwr : env.writeFail = none)
    (hid : ∀ y ∈ st.items, y.ID ≠ item.ID) :
    Load { path := (Add st env item).2.1.path, items := [] }
        { env with file :=
            (Save (Add st env item).2.1 { env with file := (Add st env item).2.2 }).2.2 }
      = (.ok (), { path := st.path, items := st.items ++ [item] })
    ∧ GetByID { path := st.path, items := st.items ++ [item] } item.ID = .ok item := by
  constructor
  · have hp : persistLocked { st with items := st.items ++ [item] }
        { env with file := (Add st env item).2.2 }
        = (.ok (), .present (itemsToJson (st.items ++ [item]))) :=
      persistLocked_ok _ _ hmk hwr
    simp only [Add] at hp
    simp only [Add, Save, Load]
    rw [hp]
    simp [itemsFromJson_itemsToJson]
  · unfold GetByID
    rw [find?_id_first st.items [] item item.ID rfl hid]

/-- C3 (witness): the round-trip at a concrete store, environment and
item. -/
theorem add_save_load_roundtrip_witness :
    GetByID { path := "p/items.json",
              items := [⟨"bc28", "Test content", "test-project", ["tag1"],
                         "2024-01-01T00:00:00Z", none, false⟩] } "bc28"
      = .ok ⟨"bc28", "Test content", "test-project", ["tag1"],
          "2024-01-01T00:00:00Z", none, false⟩ :=
  (add_save_load_roundtrip { path := "p/items.json", items := [] }
    { file := .absent, mkdirFail := none, writeFail := none }
    ⟨"bc28", "Test content", "test-project", ["tag1"],
      "2024-01-01T00:00:00Z", none, false⟩ rfl rfl (by simp)).2

/-- C4: Delete is strict and atomic on failure.  When no stored item has
the given ID, `Delete` returns `ErrItemNotFound` and leaves both the
in-memory sequence and the backing file exactly as they were (no write is
performed, in any environment); when the ID matches, `Delete` removes
exactly the first matching element, preserving the relative order of all
remaining items. -/
theorem delete_strict (st : Store) (env : Env) (id : String) :
    ((∀ y ∈ st.items, y.ID ≠ id) →
      Delete st env id = (.error .itemNotFound, st, env.file))
    ∧ ∀ pre x post, st.items = pre ++ x :: post → x.ID = id →
        (∀ y ∈ pre, y.ID ≠ id) →
        (Delete st env id).2.1.items = pre ++ post := by
  constructor
  · intro h
    simp [Delete, deleteFirst_of_forall_ne h]
  · intro pre x post hsplit hx hpre
    simp [Delete, hsplit, deleteFirst_first pre post x id hx hpre]

/-- C4 (witness): a miss on a concrete one-item store returns not-found
and changes nothing; a hit on a concrete two-item store removes exactly
the matching first element. -/
theorem delete_strict_witness :
    Delete { path := "p/items.json", items := [⟨"a", "c", "", [], "t", none, false⟩] }
        { file := .absent, mkdirFail := none, writeFail := none } "zz"
      = (.error .itemNotFound,
          { path := "p/items.json", items := [⟨"a", "c", "", [], "t", none, false⟩] },
          .absent)
    ∧ (Delete { path := "p/items.json",
                items := [⟨"a", "c", "", [], "t", none, false⟩,
                          ⟨"b", "d", "", [], "t", none, false⟩] }
        { file := .absent, mkdirFail := none, writeFail := none } "a").2.1.items
      = [⟨"b", "d", "", [], "t", none, false⟩] := by
  refine ⟨(delete_strict _ _ _).1 (by decide), ?_⟩
  exact (delete_strict _ _ _).2 [] ⟨"a", "c", "", [], "t", none, false⟩
    [⟨"b", "d", "", [], "t", none, false⟩] rfl rfl (by decide)

/-- C5: Add appends unconditionally.  For every store state, environment
(including ones where the persist fails) and item (including one whose ID
duplicates a stored ID — no duplicate check exists), the new in-memory
sequence is the old one with the item appended last; when the file write
fails, `Add` returns that error while the append stays in place. -/
theorem add_appends (st : Store) (env : Env) (item : ContextItem) :
    (Add st env item).2.1.items = st.items ++ [item]
    ∧ (Add st env item).2.1.path = st.path
    ∧ (∀ c, env.mkdirFail = none → env.writeFail = some c →
        (Add st env item).1 = .error (.writeError st.path c)) := by
  refine ⟨rfl, rfl, fun c hmk hwr => ?_⟩
  simp [Add, persistLocked, hmk, hwr]

/-- C5 (witness): appending onto a concrete store in an environment whose
file write fails: memory holds the appended item, the error is returned. -/
theorem add_appends_witness :
    (Add { path := "p/items.json", items := [] }
        { file := .absent, mkdirFail := none, writeFail := some "disk full" }
        ⟨"a", "c", "", [], "t", none, false⟩).2.1.items
      = [⟨"a", "c", "", [], "t", none, false⟩]
    ∧ (Add { path := "p/items.json", items := [] }
        { file := .absent, mkdirFail := none, writeFail := some "disk full" }
        ⟨"a", "c", "", [], "t", none, false⟩).1
      = .error (.writeError "p/items.json" "disk full") := by
  have h := add_appends { path := "p/items.json", items := [] }
    { file := .absent, mkdirFail := none, writeFail := some "disk full" }
    ⟨"a", "c", "", [], "t", none, false⟩
  exact ⟨h.1, h.2.2 "disk full" rfl rfl⟩

/-- C6: Update replaces wholesale or fails strictly.  When no stored item
has the argument's ID, `Update` returns `ErrItemNotFound` with memory and
file untouched; when one does, the first such item is replaced by the
argument in its entirety at the same position, every other item unchanged,
and (when the filesystem cooperates) the call succeeds and persists the
new sequence. -/
theorem update_wholesale (st : Store) (env : Env) (item : ContextItem) :
    ((∀ y ∈ st.items, y.ID ≠ item.ID) →
      Update st env item = (.error .itemNotFound, st, env.file))
    ∧ ∀ pre x post, st.items = pre ++ x :: post → x.ID = item.ID →
        (∀ y ∈ pre, y.ID ≠ item.ID) →
        (Update st env item).2.1.items = pre ++ item :: post
        ∧ (env.mkdirFail = none → env.writeFail = none →
            (Update st env item).1 = .ok ()
            ∧ (Update st env item).2.2 = .present (itemsToJson (pre ++ item :: post))) := by
  constructor
  · intro h
    simp [Update, updateFirst_of_forall_ne h]
  · intro pre x post hsplit hx hpre
    refine ⟨?_, fun hmk hwr => ?_⟩
    · simp [Update, hsplit, updateFirst_first pre post x item hx hpre]
    · constructor <;>
        simp [Update, hsplit, updateFirst_first pre post x item hx hpre,
          persistLocked_ok _ _ hmk hwr]

/-- C6 (witness): updating a concrete one-item store replaces the item
wholesale and succeeds. -/
theorem update_wholesale_witness :
    (Update { path := "p/items.json", items := [⟨"a", "c", "", [], "t", none, false⟩] }
        { file := .absent, mkdirFail := none, writeFail := none }
        ⟨"a", "Updated content", "q", ["x"], "t2", some "t3", true⟩).2.1.items
      = [⟨"a", "Updated content", "q", ["x"], "t2", some "t3", true⟩]
    ∧ (Update { path := "p/items.json", items := [⟨"a", "c", "", [], "t", none, false⟩] }
        { file := .absent, mkdirFail := none, writeFail := none }
        ⟨"a", "Updated content", "q", ["x"], "t2", some "t3", true⟩).1 = .ok () := by
  have h := (update_wholesale
    { path := "p/items.json", items := [⟨"a", "c", "", [], "t", none, false⟩] }
    { file := .absent, mkdirFail := none, writeFail := none }
    ⟨"a", "Updated content", "q", ["x"], "t2", some "t3", true⟩).2
    [] ⟨"a", "c", "", [], "t", none, false⟩ [] rfl rfl (by decide)
  exact ⟨h.1, (h.2 rfl rfl).1⟩

/-- C7: Archive frame property.  When the ID matches a stored item,
`Archive` sets that item's `Archived` field to true and changes nothing
else — every other field of that item (in particular `CompletedAt`,
whether set or unset) and every other item are unchanged; on a miss it
returns `ErrItemNotFound` with memory and file untouched. -/
theorem archive_frame (st : Store) (env : Env) (id : String) :
    ((∀ y ∈ st.items, y.ID ≠ id) →
      Archive st env id = (.error .itemNotFound, st, env.file))
    ∧ ∀ pre x post, st.items = pre ++ x :: post → x.ID = id →
        (∀ y ∈ pre, y.ID ≠ id) →
        (Archive st env id).2.1.items =
          pre ++ { ID := x.ID, Content := x.Content, Project := x.Project,
                   Tags := x.Tags, CreatedAt := x.CreatedAt,
                   CompletedAt := x.CompletedAt, Archived := true } :: post := by
  constructor
  · intro h
    simp [Archive, archiveFirst_of_forall_ne h]
  · intro pre x post hsplit hx hpre
    simp [Archive, hsplit, archiveFirst_first pre post x id hx hpre]

/-- C7 (witness): archiving a concrete active item flips only `Archived`;
`CompletedAt` stays unset. -/
theorem archive_frame_witness :
    (Archive { path := "p/items.json", items := [⟨"a", "c", "proj", ["t1"], "t", none, false⟩] }
        { file := .absent, mkdirFail := none, writeFail := none } "a").2.1.items
      = [⟨"a", "c", "proj", ["t1"], "t", none, true⟩] :=
  (archive_frame
    { path := "p/items.json", items := [⟨"a", "c", "proj", ["t1"], "t", none, false⟩] }
    { file := .absent, mkdirFail := none, writeFail := none } "a").2
    [] ⟨"a", "c", "proj", ["t1"], "t", none, false⟩ [] rfl rfl (by decide)

/-- C8: Load on a missing file is empty success and replaces rather than
merges; a file that cannot be read or cannot be parsed as a JSON array of
items yields a wrapped error carrying the file path and the underlying
cause, with memory untouched. -/
theorem load_semantics (st : Store) (env : Env) :
    (env.file = .absent → Load st env = (.ok (), { st with items := [] }))
    ∧ (∀ c, env.file = .unreadable c →
        Load st env = (.error (.readError st.path c), st))
    ∧ (∀ j, env.file = .present j → itemsFromJson j = none →
        Load st env = (.error (.decodeError st.path
          "cannot unmarshal JSON into []models.ContextItem"), st)) := by
  refine ⟨fun h => ?_, fun c h => ?_, fun j h hj => ?_⟩ <;>
    simp [Load, h]
  simp [hj]

/-- C8 (witness): loading a missing file empties a concrete non-empty
store and succeeds; loading a file whose content is not a JSON array
fails with a decode error naming the path. -/
theorem load_semantics_witness :
    Load { path := "p/items.json", items := [⟨"a", "c", "", [], "t", none, false⟩] }
        { file := .absent, mkdirFail := none, writeFail := none }
      = (.ok (), { path := "p/items.json", items := [] })
    ∧ Load { path := "p/items.json", items := [⟨"a", "c", "", [], "t", none, false⟩] }
        { file := .present (.str "not an array"), mkdirFail := none, writeFail := none }
      = (.error (.decodeError "p/items.json"
          "cannot unmarshal JSON into []models.ContextItem"),
          { path := "p/items.json", items := [⟨"a", "c", "", [], "t", none, false⟩] }) := by
  constructor
  · exact (load_semantics
      { path := "p/items.json", items := [⟨"a", "c", "", [], "t", none, false⟩] }
      { file := .absent, mkdirFail := none, writeFail := none }).1 rfl
  · exact (load_semantics
      { path := "p/items.json", items := [⟨"a", "c", "", [], "t", none, false⟩] }
      { file := .present (.str "not an array"), mkdirFail := none, writeFail := none }).2.2
      (.str "not an array") rfl rfl

/-- C9 (counterexample): the constructor's check is a string-suffix test,
not a filename test.  The path "/data/xitems.json" does not point at the
canonical filename `items.json` (its filename is "xitems.json"), yet the
constructor leaves it unchanged instead of appending — refuting "appends
exactly when the given path does not already point at that filename". -/
theorem newStorage_counterexample :
    (NewStorage "/data/xitems.json").path = "/data/xitems.json"
    ∧ baseName "/data/xitems.json" ≠ ItemsFileName :=
  ⟨rfl, by decide⟩

/-- C9 (amended): construction resolves the path by appending
"items.json" exactly when the given path does not already END WITH that
string (a suffix test; any path pointing at the canonical filename does
end with it and is left unchanged, but so is a path like "xitems.json").
Construction performs no filesystem call, which the embedding reflects by
`NewStorage` being a pure function of the path alone. -/
theorem newStorage_path_resolution (p : String) :
    (baseName p = ItemsFileName → (NewStorage p).path = p)
    ∧ (hasSuffix ItemsFileName p = true → (NewStorage p).path = p)
    ∧ (hasSuffix ItemsFileName p = false →
        (NewStorage p).path = joinPath p ItemsFileName) := by
  refine ⟨fun hb => ?_, fun h => ?_, fun h => ?_⟩
  · have hs : hasSuffix ItemsFileName p = true := by
      have hsfx := baseName_suffix p
      rw [hb] at hsfx
      simpa [hasSuffix, List.isSuffixOf_iff_suffix] using hsfx
    simp [NewStorage, hs]
  · simp [NewStorage, h]
  · simp [NewStorage, h]

/-- C9 (witness): a directory path gets the filename appended; a path
already pointing at the canonical filename is left unchanged. -/
theorem newStorage_path_resolution_witness :
    (NewStorage "proj").path = joinPath "proj" ItemsFileName
    ∧ (NewStorage "a/b/items.json").path = "a/b/items.json" :=
  ⟨(newStorage_path_resolution "proj").2.2 (by decide),
   (newStorage_path_resolution "a/b/items.json").1 (by decide)⟩

/-- C10: First-match discipline under duplicate IDs.  When the sequence
splits as `pre ++ x :: post` with `x` the first item whose ID matches,
`GetByID` returns `x`, and `Update`, `Archive`, `Delete` each affect
exactly `x`, leaving `post` — including any later item with the same ID —
verbatim. -/
theorem first_match_discipline (st : Store) (env : Env) (id : String)
    (pre post : List ContextItem) (x : ContextItem)
    (hsplit : st.items = pre ++ x :: post) (hx : x.ID = id)
    (hpre : ∀ y ∈ pre, y.ID ≠ id) :
    GetByID st id = .ok x
    ∧ (∀ item : ContextItem, item.ID = id →
        (Update st env item).2.1.items = pre ++ item :: post)
    ∧ (Archive st env id).2.1.items = pre ++ { x with Archived := true } :: post
    ∧ (Delete st env id).2.1.items = pre ++ post := by
  refine ⟨?_, fun item hitem => ?_, ?_, ?_⟩
  · simp [GetByID, hsplit, find?_id_first pre post x id hx hpre]
  · have hx' : x.ID = item.ID := hx.trans hitem.symm
    have hpre' : ∀ y ∈ pre, y.ID ≠ item.ID := fun y hy => by
      rw [hitem]; exact hpre y hy
    simp [Update, hsplit, updateFirst_first pre post x item hx' hpre']
  · simp [Archive, hsplit, archiveFirst_first pre post x id hx hpre]
  · simp [Delete, hsplit, deleteFirst_first pre post x id hx hpre]

/-- C10 (witness): on a concrete store whose two items share the ID
"dup", `GetByID` returns the first and `Delete` removes only the first,
leaving the later duplicate untouched. -/
theorem first_match_discipline_witness :
    GetByID { path := "p/items.json",
              items := [⟨"dup", "first", "", [], "t", none, false⟩,
                        ⟨"dup", "second", "", [], "t", none, false⟩] } "dup"
      = .ok ⟨"dup", "first", "", [], "t", none, false⟩
    ∧ (Delete { path := "p/items.json",
                items := [⟨"dup", "first", "", [], "t", none, false⟩,
                          ⟨"dup", "second", "", [], "t", none, false⟩] }
        { file := .absent, mkdirFail := none, writeFail := none } "dup").2.1.items
      = [⟨"dup", "second", "", [], "t", none, false⟩] := by
  have h := first_match_discipline
    { path := "p/items.json",
      items := [⟨"dup", "first", "", [], "t", none, false⟩,
                ⟨"dup", "second", "", [], "t", none, false⟩] }
    { file := .absent, mkdirFail := none, writeFail := none } "dup"
    [] [⟨"dup", "second", "", [], "t", none, false⟩]
    ⟨"dup", "first", "", [], "t", none, false⟩ rfl rfl (by decide)
  exact ⟨h.1, h.2.2.2⟩

end ContextKeeper
